import Mathlib

/-!
Verification of the ManaScanner (MTG Arena daemon) log-scanning core.

The definitions below are a shallow embedding of the Python sources
`src/mtg-arena-daemon/log_parser.py` (class `LogParser`) and
`src/mtg-arena-daemon/daemon.py` (class `MTGArenaDaemon`).  Python strings
are modelled as `List Char`, decoded JSON values (and the Python values
produced from them) as the inductive type `Json`, JSON objects / Python
dicts as association lists `PyDict`, and the file system as an
`Option (List Char)` (missing file / file contents) argument of
`parse_file`.  The wall-clock timestamp taken by `datetime.now()` is an
explicit argument `now`.
-/

set_option autoImplicit false

namespace ManaScanner

/-- Model of a decoded JSON value (which is also what the Python code
manipulates after `json.loads`): `null` doubles as Python `None`,
numbers are modelled as integers (the deck data in scope uses only
integral numbers), strings as `List Char`, objects as ordered
association lists. -/
inductive Json where
  | null : Json
  | bool : Bool → Json
  | num : Int → Json
  | str : List Char → Json
  | arr : List Json → Json
  | obj : List (List Char × Json) → Json

/-- A Python dict with string keys, as produced by decoding a JSON object. -/
abbrev PyDict := List (List Char × Json)

/-- The opening-brace character (written via its code point to keep the
source free of brace literals). -/
def lbrace : Char := Char.ofNat 123

/-- The closing-brace character. -/
def rbrace : Char := Char.ofNat 125

/-- The double-quote character. -/
def quot : Char := Char.ofNat 34

/-- The backslash character. -/
def bslash : Char := Char.ofNat 92

/-- Model of Python `d[k]` / first-match association-list lookup.  The
dicts built by our `json.loads` model have unique keys, so first match
is the dict's binding. -/
def dictFind : PyDict → List Char → Option Json
  | [], _ => none
  | (k, v) :: rest, key => if k = key then some v else dictFind rest key

/-- Model of Python `k in d`. -/
def dictHasKey (d : PyDict) (key : List Char) : Bool :=
  (dictFind d key).isSome

/-- Model of Python `d.get(k)`: the binding of `k`, or `None` when the
key is absent. -/
def dictGet (d : PyDict) (key : List Char) : Json :=
  match dictFind d key with
  | some v => v
  | none => Json.null

/-- Model of Python `d.get(k, dflt)`. -/
def dictGetD (d : PyDict) (key : List Char) (dflt : Json) : Json :=
  match dictFind d key with
  | some v => v
  | none => dflt

/-- Model of `d[k] = v` on a Python dict: replace the binding in place
if the key exists, else append. -/
def dictInsert : PyDict → List Char → Json → PyDict
  | [], key, v => [(key, v)]
  | (k, w) :: rest, key, v =>
      if k = key then (k, v) :: rest else (k, w) :: dictInsert rest key v

/-- Python truthiness of a decoded JSON value: `None`, `False`, `0`,
empty string, empty list and empty dict are falsy. -/
def truthy : Json → Bool
  | Json.null => false
  | Json.bool b => b
  | Json.num n => n != 0
  | Json.str s => s != []
  | Json.arr l => !l.isEmpty
  | Json.obj l => !l.isEmpty

/-- Model of Python `a or b`: `a` when truthy, else `b`. -/
def pyOr (a b : Json) : Json :=
  if truthy a then a else b

/-! ### Model of `json.loads`

The Python code feeds each candidate block to `json.loads` and keeps the
decoded object when decoding succeeds.  `json.loads` is the standard
library decoder; it is modelled here by a fuel-indexed recursive-descent
parser restricted to integral numbers and to the string escapes
appearing in practice (the deck-data blocks in scope use neither floats
nor `\uXXXX` escapes). -/

/-- Skip JSON whitespace. -/
def skipWs : List Char → List Char
  | [] => []
  | c :: cs => if c = ' ' ∨ c = '\t' ∨ c = '\n' ∨ c = '\r' then skipWs cs else c :: cs

/-- Decode a single-character JSON string escape. -/
def unescape (c : Char) : Option Char :=
  if c = quot then some quot
  else if c = bslash then some bslash
  else if c = '/' then some '/'
  else if c = 'n' then some '\n'
  else if c = 't' then some '\t'
  else if c = 'r' then some '\r'
  else none

/-- Parse the body of a JSON string after the opening quote; returns the
decoded characters and the input after the closing quote. -/
def parseStringBody : List Char → Option (List Char × List Char)
  | [] => none
  | c :: cs =>
      if c = quot then some ([], cs)
      else if c = bslash then
        match cs with
        | [] => none
        | d :: ds =>
            match unescape d with
            | some e =>
                match parseStringBody ds with
                | some (s, r) => some (e :: s, r)
                | none => none
            | none => none
      else
        match parseStringBody cs with
        | some (s, r) => some (c :: s, r)
        | none => none

/-- Take a maximal run of decimal digits. -/
def takeDigits : List Char → List Char × List Char
  | [] => ([], [])
  | c :: cs =>
      if c.isDigit then
        let (ds, rest) := takeDigits cs
        (c :: ds, rest)
      else ([], c :: cs)

/-- Numeric value of a digit run. -/
def digitsVal (ds : List Char) : Nat :=
  ds.foldl (fun a c => a * 10 + (c.toNat - 48)) 0

/-- Parse an integral JSON number (optional minus sign, digit run). -/
def parseNum (s : List Char) : Option (Json × List Char) :=
  match s with
  | [] => none
  | c :: cs =>
      if c = '-' then
        let (ds, rest) := takeDigits cs
        if ds = [] then none else some (Json.num (-(digitsVal ds : Int)), rest)
      else
        let (ds, rest) := takeDigits (c :: cs)
        if ds = [] then none else some (Json.num (digitsVal ds : Int), rest)

mutual

/-- Parse one JSON value (fuel-indexed). -/
def parseVal : Nat → List Char → Option (Json × List Char)
  | 0, _ => none
  | Nat.succ fuel, s =>
      match skipWs s with
      | [] => none
      | c :: cs =>
          if c = quot then
            match parseStringBody cs with
            | some (str, rest) => some (Json.str str, rest)
            | none => none
          else if c = lbrace then
            match skipWs cs with
            | [] => none
            | d :: ds =>
                if d = rbrace then some (Json.obj [], ds)
                else parseMembers fuel [] (d :: ds)
          else if c = '[' then
            match skipWs cs with
            | [] => none
            | d :: ds =>
                if d = ']' then some (Json.arr [], ds)
                else parseElems fuel [] (d :: ds)
          else if c = 't' then
            match cs with
            | 'r' :: 'u' :: 'e' :: rest => some (Json.bool true, rest)
            | _ => none
          else if c = 'f' then
            match cs with
            | 'a' :: 'l' :: 's' :: 'e' :: rest => some (Json.bool false, rest)
            | _ => none
          else if c = 'n' then
            match cs with
            | 'u' :: 'l' :: 'l' :: rest => some (Json.null, rest)
            | _ => none
          else parseNum (c :: cs)

/-- Parse the members of a JSON object after the opening brace (fuel-indexed).
Duplicate keys overwrite in place, as in a Python dict. -/
def parseMembers : Nat → PyDict → List Char → Option (Json × List Char)
  | 0, _, _ => none
  | Nat.succ fuel, acc, s =>
      match skipWs s with
      | [] => none
      | c :: cs =>
          if c = quot then
            match parseStringBody cs with
            | some (key, rest) =>
                match skipWs rest with
                | ':' :: rest2 =>
                    match parseVal fuel rest2 with
                    | some (v, rest3) =>
                        let acc := dictInsert acc key v
                        match skipWs rest3 with
                        | ',' :: rest4 => parseMembers fuel acc rest4
                        | d :: rest4 =>
                            if d = rbrace then some (Json.obj acc, rest4) else none
                        | [] => none
                    | none => none
                | _ => none
            | none => none
          else none

/-- Parse the elements of a JSON array after the opening bracket (fuel-indexed). -/
def parseElems : Nat → List Json → List Char → Option (Json × List Char)
  | 0, _, _ => none
  | Nat.succ fuel, acc, s =>
      match parseVal fuel s with
      | some (v, rest) =>
          match skipWs rest with
          | ',' :: rest2 => parseElems fuel (acc ++ [v]) rest2
          | ']' :: rest2 => some (Json.arr (acc ++ [v]), rest2)
          | _ => none
      | none => none

end

/-- Model of Python `json.loads`: parse one JSON value and require only
whitespace to remain; any other outcome is a `JSONDecodeError`. -/
def parseJson (s : List Char) : Option Json :=
  match parseVal (s.length + 1) s with
  | some (v, rest) => if skipWs rest = [] then some v else none
  | none => none

/-! ### `LogParser.extract_json_blocks` (log_parser.py lines 32-67)

The loop state of the Python scan: the running brace depth, the recorded
start index of the currently open candidate block (`start_idx = -1` is
modelled as `none`), and the successfully decoded blocks so far. -/

/-- State of the brace scan of `extract_json_blocks`. -/
structure ScanState where
  brace_level : Int
  start_idx : Option Nat
  blocks : List Json

/-- The slice `content[a:b]` of a Python string. -/
def slice (content : List Char) (a b : Nat) : List Char :=
  (content.drop a).take (b - a)

/-- One iteration of the `for i, char in enumerate(log_content)` loop of
`extract_json_blocks`: on a brace adjust the depth, record the start of a
top-level block, and on a depth-0 close feed `content[start:i+1]` to
`json.loads`, keeping it only on success. -/
def scanChar (content : List Char) (st : ScanState) (i : Nat) (c : Char) : ScanState :=
  if c = lbrace then
    { brace_level := st.brace_level + 1,
      start_idx := if st.brace_level = 0 then some i else st.start_idx,
      blocks := st.blocks }
  else if c = rbrace then
    let lvl := st.brace_level - 1
    match st.start_idx with
    | some s =>
        if lvl = 0 then
          { brace_level := lvl,
            start_idx := none,
            blocks := st.blocks ++
              (match parseJson (slice content s (i + 1)) with
               | some v => [v]
               | none => []) }
        else { st with brace_level := lvl }
    | none => { st with brace_level := lvl }
  else st

/-- The enumerate loop of `extract_json_blocks`, scanning `cs` starting at
index `i` of `content`. -/
def scanGo (content : List Char) : ScanState → Nat → List Char → ScanState
  | st, _, [] => st
  | st, i, c :: cs => scanGo content (scanChar content st i c) (i + 1) cs

/-- Model of `LogParser.extract_json_blocks`: return the decoded JSON
objects of all balanced top-level brace blocks of `log_content`. -/
def extract_json_blocks (log_content : List Char) : List Json :=
  (scanGo log_content ⟨0, none, []⟩ 0 log_content).blocks

/-! Index-free reformulation of the same scan, used in the proofs: instead
of a start index into the full buffer, the state carries the characters of
the open candidate block accumulated so far.  `scan_acc_agrees` below
proves it equal to the index-based scan. -/

/-- Index-free scan state: `cur` holds the characters of the open
candidate block. -/
structure AccState where
  brace_level : Int
  cur : Option (List Char)
  blocks : List Json

/-- Index-free counterpart of `scanChar`. -/
def accChar (st : AccState) (c : Char) : AccState :=
  if c = lbrace then
    { brace_level := st.brace_level + 1,
      cur := if st.brace_level = 0 then some [c] else st.cur.map (fun b => b ++ [c]),
      blocks := st.blocks }
  else if c = rbrace then
    let lvl := st.brace_level - 1
    match st.cur with
    | some b =>
        if lvl = 0 then
          { brace_level := lvl,
            cur := none,
            blocks := st.blocks ++
              (match parseJson (b ++ [c]) with
               | some v => [v]
               | none => []) }
        else { brace_level := lvl, cur := some (b ++ [c]), blocks := st.blocks }
    | none => { st with brace_level := lvl }
  else { st with cur := st.cur.map (fun b => b ++ [c]) }

/-- Index-free scan of a character list. -/
def accGo (st : AccState) (cs : List Char) : AccState :=
  cs.foldl accChar st

/-! ### `LogParser.is_deck_data` (log_parser.py lines 69-85) -/

/-- The `deck_keys` list of `is_deck_data`, in source order. -/
def deck_keys : List (List Char) :=
  ["mainDeck".toList, "sideboard".toList, "deckId".toList, "name".toList,
   "decks".toList, "deckList".toList, "mainBoard".toList]

/-- Model of `LogParser.is_deck_data`: `any(key in json_obj for key in deck_keys)`. -/
def is_deck_data (json_obj : PyDict) : Bool :=
  deck_keys.any (fun key => dictHasKey json_obj key)

/-! ### `LogParser.extract_decks` (log_parser.py lines 87-111) -/

/-- Model of `LogParser.extract_decks`: a `decks` entry is expanded
(list elements, or the single dict); otherwise an object carrying
`mainDeck` or `mainBoard` is itself the single deck; otherwise no deck.
A `decks` value that is neither a list nor a dict contributes nothing
(`decks` stays empty in the source). -/
def extract_decks (json_obj : PyDict) : List Json :=
  if dictHasKey json_obj "decks".toList then
    match dictFind json_obj "decks".toList with
    | some (Json.arr l) => l
    | some (Json.obj o) => [Json.obj o]
    | _ => []
  else if dictHasKey json_obj "mainDeck".toList ∨ dictHasKey json_obj "mainBoard".toList then
    [Json.obj json_obj]
  else []

/-! ### `LogParser.parse_deck_list` (log_parser.py lines 113-175) -/

/-- Normalization of one card mapping, mirroring the dict literal appended
to `deck['main_deck']` (and, identically, to `deck['sideboard']`):
`card_id` from `card.get('cardId') or card.get('id')`, `quantity` from
`card.get('quantity', 1)`, `name` from `card.get('name', 'Unknown')`. -/
def normalizeCard (card : PyDict) : Json :=
  Json.obj
    [("card_id".toList, pyOr (dictGet card "cardId".toList) (dictGet card "id".toList)),
     ("quantity".toList, dictGetD card "quantity".toList (Json.num 1)),
     ("name".toList, dictGetD card "name".toList (Json.str "Unknown".toList))]

/-- One iteration of the `for card in ...` loop: a mapping entry is
normalized and appended, a non-mapping entry is skipped
(`isinstance(card, dict)`). -/
def normalizeCardStep (acc : List Json) (card : Json) : List Json :=
  match card with
  | Json.obj ckvs => acc ++ [normalizeCard ckvs]
  | _ => acc

/-- The `for card in ...: if isinstance(card, dict): append(...)` loop run
over a source card list: non-mapping entries are skipped. -/
def normalizeCardList (cards : List Json) : List Json :=
  cards.foldl normalizeCardStep []

/-- The source card list that `parse_deck_list` reads under key `key`:
the value when it is a list, nothing when the key is absent or the value
is not a list (`if key in deck_data` + `isinstance(..., list)`). -/
def srcCardList (deck_data : PyDict) (key : List Char) : List Json :=
  match dictFind deck_data key with
  | some (Json.arr cards) => cards
  | _ => []

/-- Model of `LogParser.parse_deck_list`.  A non-mapping `deck_data`
raises (`.get` on a non-dict) inside the `try`, which the source catches
and converts to `None`; a mapping always yields the standardized deck
dict, with fields resolved exactly as in the source (`or`-chains are
Python truthiness-based).  `now` models `datetime.now().isoformat()`. -/
def parse_deck_list (now : List Char) (deck_data : Json) : Option PyDict :=
  match deck_data with
  | Json.obj kvs =>
      let idv := pyOr (pyOr (dictGet kvs "id".toList) (dictGet kvs "deckId".toList))
        (dictGet kvs "deckID".toList)
      let namev := pyOr (pyOr (dictGet kvs "name".toList) (dictGet kvs "deckName".toList))
        (Json.str "Unnamed Deck".toList)
      let formatv := pyOr (dictGet kvs "format".toList) (Json.str "unknown".toList)
      let descv := dictGetD kvs "description".toList (Json.str [])
      let main_key := if dictHasKey kvs "mainDeck".toList then "mainDeck".toList
        else "mainBoard".toList
      let main_deck := normalizeCardList (srcCardList kvs main_key)
      let sideboard := normalizeCardList (srcCardList kvs "sideboard".toList)
      let commander :=
        (srcCardList kvs "commandZoneGRPIds".toList).map
          (fun card_id => Json.obj
            [("card_id".toList, card_id),
             ("quantity".toList, Json.num 1),
             ("name".toList, Json.str "Unknown".toList)])
      some
        [("id".toList, idv),
         ("name".toList, namev),
         ("format".toList, formatv),
         ("description".toList, descv),
         ("main_deck".toList, Json.arr main_deck),
         ("sideboard".toList, Json.arr sideboard),
         ("commander".toList, Json.arr commander),
         ("timestamp".toList, Json.str now)]
  | _ => none

/-! ### `LogParser.parse_log_chunk` (log_parser.py lines 177-206) -/

/-- The body of the `for json_obj in json_blocks` loop of
`parse_log_chunk`: classifier, expansion, normalization.  Every block the
scanner yields starts with a brace and therefore decodes to an object;
the catch-all branch is unreachable. -/
def decksOfBlock (now : List Char) (json_obj : Json) : List PyDict :=
  match json_obj with
  | Json.obj kvs =>
      if is_deck_data kvs then
        (extract_decks kvs).filterMap (parse_deck_list now)
      else []
  | _ => []

/-- Model of `LogParser.parse_log_chunk`. -/
def parse_log_chunk (now : List Char) (log_content : List Char) (start_pos : Nat) :
    List PyDict :=
  let chunk := log_content.drop start_pos
  let json_blocks := extract_json_blocks chunk
  json_blocks.foldl (fun decks json_obj => decks ++ decksOfBlock now json_obj) []

/-! ### `LogParser.parse_file` (log_parser.py lines 208-237)

The file system is modelled as `Option (List Char)`: `none` is a missing
file (the `FileNotFoundError` branch returns `([], from_position)`),
`some content` is the file's text.  `f.seek(p); f.read(); f.tell()`
yields the text from position `p` on and the end-of-file position
(`p` itself when the file is shorter than `p`). -/

/-- Model of `LogParser.parse_file`. -/
def parse_file (now : List Char) (file : Option (List Char)) (from_position : Nat) :
    List PyDict × Nat :=
  match file with
  | none => ([], from_position)
  | some content =>
      let chunk := content.drop from_position
      let new_position := max from_position content.length
      (parse_log_chunk now chunk 0, new_position)

/-! ### `MTGArenaDaemon.get_deck_id` and the dedup loop of
`MTGArenaDaemon.process_log_file` (daemon.py lines 191-240) -/

/-- Comma-separated joining used by Python list/dict `repr`. -/
def joinSep : List (List Char) → List Char
  | [] => []
  | [s] => s
  | s :: ss => s ++ ',' :: ' ' :: joinSep ss

mutual

/-- Rendering of a decoded value by Python `repr`, used by `str` on lists
and dicts.  String escaping inside `repr` is not modelled (no claim
depends on it); scalars are rendered exactly (`None`, `True`, `False`,
decimal integers). -/
def pyRepr : Json → List Char
  | Json.null => "None".toList
  | Json.bool true => "True".toList
  | Json.bool false => "False".toList
  | Json.num n => (toString n).toList
  | Json.str s => '\x27' :: s ++ ['\x27']
  | Json.arr l => '[' :: (joinSep (pyReprList l)) ++ [']']
  | Json.obj l => lbrace :: (joinSep (pyReprPairs l)) ++ [rbrace]

/-- Rendering by `repr` of the elements of a list. -/
def pyReprList : List Json → List (List Char)
  | [] => []
  | v :: vs => pyRepr v :: pyReprList vs

/-- Rendering by `repr` of the key-value pairs of a dict. -/
def pyReprPairs : List (List Char × Json) → List (List Char)
  | [] => []
  | (k, v) :: kvs => ('\x27' :: k ++ '\x27' :: ':' :: ' ' :: pyRepr v) :: pyReprPairs kvs

end

/-- Model of Python `str` on a decoded value (as interpolated by the
f-string of `get_deck_id`): a string renders as itself, everything else
as its `repr`. -/
def pyStr : Json → List Char
  | Json.str s => s
  | v => pyRepr v

/-- Model of Python `len` on a decoded value (raises on scalars; only
reached on lists here). -/
def pyLen : Json → Nat
  | Json.arr l => l.length
  | Json.str s => s.length
  | Json.obj l => l.length
  | _ => 0

/-- Model of `MTGArenaDaemon.get_deck_id`: the fingerprint
`f"{deck.get('id','')}_{deck.get('name','')}_{len(deck.get('main_deck',[]))}"`. -/
def get_deck_id (deck : PyDict) : List Char :=
  let deck_id := dictGetD deck "id".toList (Json.str [])
  let deck_name := dictGetD deck "name".toList (Json.str [])
  let main_count := pyLen (dictGetD deck "main_deck".toList (Json.arr []))
  pyStr deck_id ++ '_' :: pyStr deck_name ++ '_' :: (toString main_count).toList

/-- The deduplication loop of `MTGArenaDaemon.process_log_file` over the
decks of one scan: a deck whose `get_deck_id` fingerprint is already in
`exported_decks` is skipped, otherwise it is exported and its fingerprint
recorded.  Returns the newly exported decks (in order) and the updated
fingerprint set (the export side effects and the `auto_export` config
guard are outside the model). -/
def process_new_decks : List PyDict → List (List Char) → List PyDict × List (List Char)
  | [], exported_decks => ([], exported_decks)
  | deck :: rest, exported_decks =>
      let deck_id := get_deck_id deck
      if deck_id ∈ exported_decks then process_new_decks rest exported_decks
      else
        let next := process_new_decks rest (deck_id :: exported_decks)
        (deck :: next.1, next.2)

/-! ## Helper lemmas -/

theorem dictFind_eq_none_of_hasKey_false {d : PyDict} {k : List Char}
    (h : dictHasKey d k = false) : dictFind d k = none := by
  unfold dictHasKey at h
  cases hf : dictFind d k with
  | none => rfl
  | some v => rw [hf] at h; simp at h

theorem dictGet_eq_null_of_hasKey_false {d : PyDict} {k : List Char}
    (h : dictHasKey d k = false) : dictGet d k = Json.null := by
  unfold dictGet
  rw [dictFind_eq_none_of_hasKey_false h]

theorem dictGetD_eq_default_of_hasKey_false {d : PyDict} {k : List Char} {dflt : Json}
    (h : dictHasKey d k = false) : dictGetD d k dflt = dflt := by
  unfold dictGetD
  rw [dictFind_eq_none_of_hasKey_false h]

theorem dictGet_eq_of_hasKey_true {d : PyDict} {k : List Char}
    (h : dictHasKey d k = true) : dictFind d k = some (dictGet d k) := by
  unfold dictHasKey at h
  cases hf : dictFind d k with
  | none => rw [hf] at h; simp at h
  | some v => unfold dictGet; rw [hf]

/-! ### Agreement of the index-based scan with the index-free scan -/

theorem accGo_nil (st : AccState) : accGo st [] = st := rfl

theorem accGo_cons (st : AccState) (c : Char) (cs : List Char) :
    accGo st (c :: cs) = accGo (accChar st c) cs := rfl

theorem accGo_append (st : AccState) (a b : List Char) :
    accGo st (a ++ b) = accGo (accGo st a) b :=
  List.foldl_append _ _ _ _

theorem slice_single (content : List Char) (i : Nat) (c : Char) (rest : List Char)
    (h : content.drop i = c :: rest) : slice content i (i + 1) = [c] := by
  unfold slice
  rw [h, show i + 1 - i = 1 by omega]
  rfl

theorem slice_snoc (content : List Char) (s i : Nat) (c : Char) (rest : List Char)
    (hsi : s ≤ i) (h : content.drop i = c :: rest) :
    slice content s (i + 1) = slice content s i ++ [c] := by
  have hi : i < content.length := by
    by_contra hle
    push_neg at hle
    rw [List.drop_eq_nil_of_le hle] at h
    exact List.noConfusion h
  have hds : content.drop s = slice content s i ++ (c :: rest) := by
    unfold slice
    conv_lhs => rw [← List.take_append_drop (i - s) (content.drop s)]
    congr 1
    rw [List.drop_drop, show s + (i - s) = i by omega]
    exact h
  have hlen : (slice content s i).length = i - s := by
    unfold slice
    rw [List.length_take, List.length_drop]
    omega
  calc slice content s (i + 1)
      = (content.drop s).take (i + 1 - s) := rfl
    _ = ((slice content s i) ++ (c :: rest)).take (i + 1 - s) := by
        rw [hds]
    _ = slice content s i ++ (c :: rest).take (i + 1 - s - (slice content s i).length) := by
        rw [List.take_append_eq_append_take, List.take_of_length_le (by omega)]
    _ = slice content s i ++ [c] := by
        rw [hlen, show i + 1 - s - (i - s) = 1 by omega]
        rfl

/-- The simulation relation between the index-based scan state over
`content` at position `i` and the index-free state: same depth, same
emitted blocks, and the recorded start index corresponds to the
accumulated characters `content[s:i]` of the open block. -/
def StRel (content : List Char) (i : Nat) (st1 : ScanState) (st2 : AccState) : Prop :=
  st1.brace_level = st2.brace_level ∧ st1.blocks = st2.blocks ∧
    ((st1.start_idx = none ∧ st2.cur = none) ∨
      (∃ s, st1.start_idx = some s ∧ s ≤ i ∧ st2.cur = some (slice content s i)))

theorem scanChar_accChar_rel {content : List Char} {i : Nat} {c : Char} {rest : List Char}
    {st1 : ScanState} {st2 : AccState}
    (hdrop : content.drop i = c :: rest) (hrel : StRel content i st1 st2) :
    StRel content (i + 1) (scanChar content st1 i c) (accChar st2 c) := by
  obtain ⟨L1, S1, B1⟩ := st1
  obtain ⟨L2, C2, B2⟩ := st2
  obtain ⟨hlvl, hblocks, hdisj⟩ := hrel
  simp only at hlvl hblocks
  subst hlvl
  subst hblocks
  by_cases hc1 : c = lbrace
  · subst hc1
    by_cases hz : L1 = 0
    · subst hz
      rcases hdisj with ⟨hS, hC⟩ | ⟨s, hS, hsle, hC⟩ <;> simp only at hS hC <;> subst hS <;> subst hC <;>
        exact ⟨rfl, rfl, Or.inr ⟨i, by simp [scanChar],
          by omega, by simp [accChar, slice_single content i _ _ hdrop]⟩⟩
    · rcases hdisj with ⟨hS, hC⟩ | ⟨s, hS, hsle, hC⟩ <;> simp only at hS hC <;> subst hS <;> subst hC
      · exact ⟨by simp [scanChar, accChar, hz], by simp [scanChar, accChar, hz],
          Or.inl ⟨by simp [scanChar, hz], by simp [accChar, hz]⟩⟩
      · refine ⟨by simp [scanChar, accChar, hz], by simp [scanChar, accChar, hz],
          Or.inr ⟨s, by simp [scanChar, hz], by omega, ?_⟩⟩
        simp [accChar, hz, slice_snoc content s i _ _ hsle hdrop]
  · by_cases hc2 : c = rbrace
    · subst hc2
      have hlb : ¬(rbrace = lbrace) := by decide
      rcases hdisj with ⟨hS, hC⟩ | ⟨s, hS, hsle, hC⟩ <;> simp only at hS hC <;> subst hS <;> subst hC
      · exact ⟨by simp [scanChar, accChar, hlb], by simp [scanChar, accChar, hlb],
          Or.inl ⟨by simp [scanChar, hlb], by simp [accChar, hlb]⟩⟩
      · by_cases hz : L1 - 1 = 0
        · refine ⟨by simp [scanChar, accChar, hlb, hz],
            ?_,
            Or.inl ⟨by simp [scanChar, hlb, hz], by simp [accChar, hlb, hz]⟩⟩
          simp [scanChar, accChar, hlb, hz, slice_snoc content s i _ _ hsle hdrop]
        · refine ⟨by simp [scanChar, accChar, hlb, hz],
            by simp [scanChar, accChar, hlb, hz],
            Or.inr ⟨s, by simp [scanChar, hlb, hz], by omega, ?_⟩⟩
          simp [accChar, hlb, hz, slice_snoc content s i _ _ hsle hdrop]
    · rcases hdisj with ⟨hS, hC⟩ | ⟨s, hS, hsle, hC⟩ <;> simp only at hS hC <;> subst hS <;> subst hC
      · exact ⟨by simp [scanChar, accChar, hc1, hc2], by simp [scanChar, accChar, hc1, hc2],
          Or.inl ⟨by simp [scanChar, hc1, hc2], by simp [accChar, hc1, hc2]⟩⟩
      · refine ⟨by simp [scanChar, accChar, hc1, hc2], by simp [scanChar, accChar, hc1, hc2],
          Or.inr ⟨s, by simp [scanChar, hc1, hc2], by omega, ?_⟩⟩
        simp [accChar, hc1, hc2, slice_snoc content s i _ _ hsle hdrop]

theorem scanGo_agrees (content : List Char) :
    ∀ (cs : List Char) (i : Nat) (st1 : ScanState) (st2 : AccState),
      content.drop i = cs → StRel content i st1 st2 →
      StRel content (i + cs.length) (scanGo content st1 i cs) (accGo st2 cs) := by
  intro cs
  induction cs with
  | nil => intro i st1 st2 _ hrel; simpa [scanGo, accGo_nil] using hrel
  | cons c cs ih =>
      intro i st1 st2 hdrop hrel
      have hdrop' : content.drop (i + 1) = cs := by
        have h1 := congrArg (List.drop 1) hdrop
        rw [List.drop_drop] at h1
        simpa using h1
      have hstep := scanChar_accChar_rel hdrop hrel
      have hrec := ih (i + 1) (scanChar content st1 i c) (accChar st2 c) hdrop' hstep
      rw [show i + 1 + cs.length = i + (c :: cs).length by simp only [List.length_cons]; omega] at hrec
      exact hrec

theorem extract_eq_accGo (content : List Char) :
    extract_json_blocks content = (accGo ⟨0, none, []⟩ content).blocks := by
  have h := scanGo_agrees content content 0 ⟨0, none, []⟩ ⟨0, none, []⟩ (by simp)
    ⟨rfl, rfl, Or.inl ⟨rfl, rfl⟩⟩
  exact h.2.1

/-! ### Behaviour of the scan on brace-free text, balanced blocks and
unterminated blocks -/

/-- Contribution of one character to the brace depth. -/
def braceDelta (c : Char) : Int :=
  if c = lbrace then 1 else if c = rbrace then -1 else 0

/-- Total brace depth change over a character list. -/
def braceSum : List Char → Int
  | [] => 0
  | c :: cs => braceDelta c + braceSum cs

/-- Starting from depth `lvl`, the running depth stays at least `1`
throughout `cs` (so an open block neither closes nor is abandoned). -/
def staysPos : Int → List Char → Bool
  | _, [] => true
  | lvl, c :: cs => decide (1 ≤ lvl + braceDelta c) && staysPos (lvl + braceDelta c) cs

theorem accChar_inert {st : AccState} {c : Char}
    (h1 : c ≠ lbrace) (h2 : c ≠ rbrace) (h3 : st.cur = none) : accChar st c = st := by
  obtain ⟨L, C, B⟩ := st
  simp only at h3
  subst h3
  simp [accChar, h1, h2]

theorem accGo_inert {cs : List Char} (st : AccState)
    (h : ∀ c ∈ cs, c ≠ lbrace ∧ c ≠ rbrace) (h3 : st.cur = none) : accGo st cs = st := by
  induction cs with
  | nil => rfl
  | cons c cs ih =>
      have hc := h c (by simp)
      rw [accGo_cons, accChar_inert hc.1 hc.2 h3]
      exact ih (fun d hd => h d (by simp [hd]))

/-- While the depth stays at least `1`, the scan keeps the open block and
appends every character to it: no block is emitted and no new block is
started. -/
theorem accGo_open (mid : List Char) :
    ∀ (lvl : Int) (b : List Char) (blocks : List Json), 1 ≤ lvl →
      staysPos lvl mid = true →
      accGo ⟨lvl, some b, blocks⟩ mid = ⟨lvl + braceSum mid, some (b ++ mid), blocks⟩ := by
  induction mid with
  | nil => intro lvl b blocks _ _; simp [accGo_nil, braceSum]
  | cons c cs ih =>
      intro lvl b blocks hlvl hstays
      rw [staysPos, Bool.and_eq_true, decide_eq_true_eq] at hstays
      obtain ⟨hge, hstays⟩ := hstays
      have hstep : accChar ⟨lvl, some b, blocks⟩ c = ⟨lvl + braceDelta c, some (b ++ [c]), blocks⟩ := by
        by_cases hc1 : c = lbrace
        · subst hc1
          simp [accChar, braceDelta, show ¬(lvl = 0) by omega]
        · by_cases hc2 : c = rbrace
          · subst hc2
            have hlb : ¬(rbrace = lbrace) := by decide
            have hnz : ¬(lvl - 1 = 0) := by
              simp [braceDelta, hlb] at hge
              omega
            simp [accChar, braceDelta, hlb, hnz]
            omega
          · simp [accChar, braceDelta, hc1, hc2]
      rw [accGo_cons, hstep, ih (lvl + braceDelta c) (b ++ [c]) blocks hge hstays]
      simp [braceSum]
      omega

/-- A balanced block scanned from a clean depth-0 state emits exactly its
own decode (when `json.loads` succeeds) and returns to the clean state. -/
theorem accGo_balanced (m : List Char) (blocks : List Json)
    (hm : staysPos 1 m = true) (hsum : braceSum m = 0) :
    accGo ⟨0, none, blocks⟩ (lbrace :: m ++ [rbrace]) =
      ⟨0, none, blocks ++
        (match parseJson (lbrace :: m ++ [rbrace]) with
         | some v => [v]
         | none => [])⟩ := by
  have hopen : accChar ⟨0, none, blocks⟩ lbrace = ⟨1, some [lbrace], blocks⟩ := by
    simp [accChar]
  have h1 : accGo ⟨0, none, blocks⟩ (lbrace :: m) = ⟨1, some (lbrace :: m), blocks⟩ := by
    rw [accGo_cons, hopen, accGo_open m 1 [lbrace] blocks (by omega) hm]
    simp [hsum]
  rw [show lbrace :: m ++ [rbrace] = (lbrace :: m) ++ [rbrace] from rfl, accGo_append, h1,
    accGo_cons, accGo_nil]
  have hlb : ¬(rbrace = lbrace) := by decide
  simp [accChar, hlb]

/-- An unterminated block (depth never returns to 0) contributes no
blocks: scanning it from the clean state only accumulates characters. -/
theorem accGo_unterminated (v : List Char) (blocks : List Json)
    (hv : staysPos 1 v = true) :
    accGo ⟨0, none, blocks⟩ (lbrace :: v) = ⟨1 + braceSum v, some (lbrace :: v), blocks⟩ := by
  have hopen : accChar ⟨0, none, blocks⟩ lbrace = ⟨1, some [lbrace], blocks⟩ := by
    simp [accChar]
  rw [accGo_cons, hopen, accGo_open v 1 [lbrace] blocks (by omega) hv]
  simp

/-! ### Lemmas about card-list normalization -/

theorem normalizeCardList_shift (cards : List Json) :
    ∀ acc : List Json, cards.foldl normalizeCardStep acc = acc ++ normalizeCardList cards := by
  induction cards with
  | nil => intro acc; simp [normalizeCardList]
  | cons card cs ih =>
      intro acc
      rw [List.foldl_cons, ih]
      conv_rhs => rw [normalizeCardList, List.foldl_cons, ih]
      cases card <;> simp [normalizeCardStep]

theorem mem_normalizeCardList {e : Json} {cards : List Json}
    (h : e ∈ normalizeCardList cards) :
    ∃ ckvs, Json.obj ckvs ∈ cards ∧ e = normalizeCard ckvs := by
  induction cards with
  | nil => simp [normalizeCardList] at h
  | cons card cs ih =>
      rw [normalizeCardList, List.foldl_cons, normalizeCardList_shift] at h
      rw [List.mem_append] at h
      rcases h with h | h
      · cases card with
        | obj ckvs =>
            simp [normalizeCardStep] at h
            exact ⟨ckvs, by simp, h⟩
        | null => simp [normalizeCardStep] at h
        | bool b => simp [normalizeCardStep] at h
        | num n => simp [normalizeCardStep] at h
        | str s => simp [normalizeCardStep] at h
        | arr l => simp [normalizeCardStep] at h
      · obtain ⟨ckvs, hmem, he⟩ := ih h
        exact ⟨ckvs, by simp [hmem], he⟩

/-- Model of subscripting a decoded value with a string key, used to
state properties of normalized card entries. -/
def jsonGet (j : Json) (key : List Char) : Json :=
  match j with
  | Json.obj kvs => dictGet kvs key
  | _ => Json.null

/-! ## Claims -/

/-- C1: if `parse_file(path, offset)` returns `(decks, new_offset)` and
the stream does not grow, a second call `parse_file(path, new_offset)`
returns an empty deck batch and the same offset `new_offset`.  This holds
for any file-system state (present or missing file): the first call's
returned offset is at or past end-of-file, so the second call reads an
empty chunk. -/
theorem C1_second_scan_empty (now : List Char) (file : Option (List Char)) (n : Nat)
    (decks : List PyDict) (m : Nat) (h : parse_file now file n = (decks, m)) :
    parse_file now file m = ([], m) := by
  cases file with
  | none =>
      have hm : n = m := congrArg Prod.snd h
      subst hm
      rfl
  | some content =>
      have hm : max n content.length = m := congrArg Prod.snd h
      have hlen : content.length ≤ m := by
        rw [← hm]
        exact le_max_right _ _
      show (parse_log_chunk now (content.drop m) 0, max m content.length) = ([], m)
      rw [List.drop_eq_nil_of_le hlen, max_eq_left hlen]
      rfl

/-- C1 witness: a concrete one-character stream, scanned from offset 0
and rescanned from the returned offset. -/
theorem C1_second_scan_empty_witness :
    parse_file [] (some "x".toList) 0 = (([] : List PyDict), 1) ∧
    parse_file [] (some "x".toList) 1 = (([] : List PyDict), 1) :=
  ⟨rfl, C1_second_scan_empty [] (some "x".toList) 0 [] 1 rfl⟩

/-- C7: when the stream file is missing, `parse_file` does not raise (it
is total here, and models the `except FileNotFoundError` branch) and
returns an empty deck batch with the offset unchanged. -/
theorem C7_missing_file (now : List Char) (from_position : Nat) :
    parse_file now none from_position = ([], from_position) := rfl

/-- C10: an object that has a `name` key but none of `decks`,
`mainDeck`, `mainBoard` is classified as deck data by `is_deck_data`,
yet `extract_decks` expands it to nothing, so the pipeline yields zero
canonical decks from it. -/
theorem C10_name_only_yields_nothing (now : List Char) (kvs : PyDict)
    (hname : dictHasKey kvs ("name".toList) = true)
    (hdecks : dictHasKey kvs ("decks".toList) = false)
    (hmain : dictHasKey kvs ("mainDeck".toList) = false)
    (hboard : dictHasKey kvs ("mainBoard".toList) = false) :
    is_deck_data kvs = true ∧ extract_decks kvs = [] ∧
      decksOfBlock now (Json.obj kvs) = [] := by
  have h1 : is_deck_data kvs = true := by
    simp only [is_deck_data, deck_keys, List.any_cons, List.any_nil, Bool.or_false,
      Bool.or_eq_true]
    exact Or.inr (Or.inr (Or.inr (Or.inl hname)))
  have h2 : extract_decks kvs = [] := by
    simp only [extract_decks, hdecks, hmain, hboard]
    simp
  refine ⟨h1, h2, ?_⟩
  simp only [decksOfBlock, h2]
  simp

/-- C10 witness: the concrete object with only a `name` key. -/
theorem C10_name_only_yields_nothing_witness :
    is_deck_data [("name".toList, Json.str "X".toList)] = true ∧
    extract_decks [("name".toList, Json.str "X".toList)] = [] ∧
    decksOfBlock [] (Json.obj [("name".toList, Json.str "X".toList)]) = [] :=
  C10_name_only_yields_nothing [] _ rfl rfl rfl rfl

/-- C3: every canonical deck produced by the normalizer contains a
`main_deck` field holding a list (possibly empty), and a parsed object
lacking every deck container key (`decks`, `mainDeck`, `mainBoard` — the
keys `extract_decks` recognizes as holding deck data, cf. §4.3 of the
spec) produces no canonical deck. -/
theorem C3_main_deck_always_present (now : List Char) :
    (∀ (j : Json) (d : PyDict), parse_deck_list now j = some d →
      ∃ l, dictFind d ("main_deck".toList) = some (Json.arr l)) ∧
    (∀ kvs : PyDict, dictHasKey kvs ("decks".toList) = false →
      dictHasKey kvs ("mainDeck".toList) = false →
      dictHasKey kvs ("mainBoard".toList) = false →
      decksOfBlock now (Json.obj kvs) = []) := by
  constructor
  · intro j d h
    cases j with
    | obj kvs =>
        have hd := Option.some.inj h
        subst hd
        exact ⟨_, rfl⟩
    | null => exact Option.noConfusion h
    | bool b => exact Option.noConfusion h
    | num n => exact Option.noConfusion h
    | str s => exact Option.noConfusion h
    | arr l => exact Option.noConfusion h
  · intro kvs h1 h2 h3
    have h4 : extract_decks kvs = [] := by
      simp only [extract_decks, h1, h2, h3]
      simp
    simp only [decksOfBlock, h4]
    simp

/-- C3 witness: a deck with an empty `mainDeck` still gets a `main_deck`
field; an object with only a `name` key produces nothing. -/
theorem C3_main_deck_always_present_witness :
    (∃ l, dictFind ((parse_deck_list [] (Json.obj [("mainDeck".toList, Json.arr [])])).getD [])
      ("main_deck".toList) = some (Json.arr l)) ∧
    decksOfBlock [] (Json.obj [("name".toList, Json.str "Y".toList)]) = [] := by
  constructor
  · obtain ⟨d, hd⟩ : ∃ d, parse_deck_list [] (Json.obj [("mainDeck".toList, Json.arr [])]) =
        some d := ⟨_, rfl⟩
    rw [hd, Option.getD_some]
    exact (C3_main_deck_always_present []).1 _ d hd
  · exact (C3_main_deck_always_present []).2 _ rfl rfl rfl

/-- C4 counterexample: the raw deck `\x7b"id": "", "deckId": "X",
"mainDeck": []\x7d` has the key `id` present (bound to the empty string),
yet normalization resolves `id` to `"X"` from the later candidate
`deckId`, because the source resolves fields with Python `or`
(truthiness), not key presence.  This refutes "a later candidate ... is
used only when every earlier candidate key is absent". -/
theorem C4_counterexample :
    dictHasKey [(("id".toList : List Char), Json.str []),
      ("deckId".toList, Json.str "X".toList),
      ("mainDeck".toList, Json.arr [])] ("id".toList) = true ∧
    dictFind ((parse_deck_list [] (Json.obj [("id".toList, Json.str []),
      ("deckId".toList, Json.str "X".toList),
      ("mainDeck".toList, Json.arr [])])).getD []) ("id".toList) =
      some (Json.str "X".toList) ∧
    dictGet [(("id".toList : List Char), Json.str []),
      ("deckId".toList, Json.str "X".toList),
      ("mainDeck".toList, Json.arr [])] ("id".toList) ≠ Json.str "X".toList := by
  refine ⟨rfl, rfl, ?_⟩
  intro hcontra
  exact List.noConfusion (Json.str.inj hcontra)

/-- C4 (amended): field resolution picks the first candidate with a
truthy value; a later candidate or the placeholder is used exactly when
every earlier candidate is absent or bound to a falsy value (Python `or`
semantics); the last `id` candidate `deckID` is used verbatim (possibly
`None`) when the earlier two are falsy. -/
theorem C4_amended_first_truthy_wins (now : List Char) (kvs d : PyDict)
    (h : parse_deck_list now (Json.obj kvs) = some d) :
    (truthy (dictGet kvs ("id".toList)) = true →
      dictFind d ("id".toList) = some (dictGet kvs ("id".toList))) ∧
    (truthy (dictGet kvs ("id".toList)) = false →
      truthy (dictGet kvs ("deckId".toList)) = true →
      dictFind d ("id".toList) = some (dictGet kvs ("deckId".toList))) ∧
    (truthy (dictGet kvs ("id".toList)) = false →
      truthy (dictGet kvs ("deckId".toList)) = false →
      dictFind d ("id".toList) = some (dictGet kvs ("deckID".toList))) ∧
    (truthy (dictGet kvs ("name".toList)) = true →
      dictFind d ("name".toList) = some (dictGet kvs ("name".toList))) ∧
    (truthy (dictGet kvs ("name".toList)) = false →
      truthy (dictGet kvs ("deckName".toList)) = true →
      dictFind d ("name".toList) = some (dictGet kvs ("deckName".toList))) ∧
    (truthy (dictGet kvs ("name".toList)) = false →
      truthy (dictGet kvs ("deckName".toList)) = false →
      dictFind d ("name".toList) = some (Json.str "Unnamed Deck".toList)) ∧
    (truthy (dictGet kvs ("format".toList)) = true →
      dictFind d ("format".toList) = some (dictGet kvs ("format".toList))) ∧
    (truthy (dictGet kvs ("format".toList)) = false →
      dictFind d ("format".toList) = some (Json.str "unknown".toList)) := by
  have hd := Option.some.inj h
  subst hd
  refine ⟨?_, ?_, ?_, ?_, ?_, ?_, ?_, ?_⟩
  · intro h1
    simp at h1
    show some (pyOr (pyOr (dictGet kvs ("id".toList)) (dictGet kvs ("deckId".toList)))
      (dictGet kvs ("deckID".toList))) = _
    simp [pyOr, h1]
  · intro h1 h2
    simp at h1 h2
    show some (pyOr (pyOr (dictGet kvs ("id".toList)) (dictGet kvs ("deckId".toList)))
      (dictGet kvs ("deckID".toList))) = _
    simp [pyOr, h1, h2]
  · intro h1 h2
    simp at h1 h2
    show some (pyOr (pyOr (dictGet kvs ("id".toList)) (dictGet kvs ("deckId".toList)))
      (dictGet kvs ("deckID".toList))) = _
    simp [pyOr, h1, h2]
  · intro h1
    simp at h1
    show some (pyOr (pyOr (dictGet kvs ("name".toList)) (dictGet kvs ("deckName".toList)))
      (Json.str "Unnamed Deck".toList)) = _
    simp [pyOr, h1]
  · intro h1 h2
    simp at h1 h2
    show some (pyOr (pyOr (dictGet kvs ("name".toList)) (dictGet kvs ("deckName".toList)))
      (Json.str "Unnamed Deck".toList)) = _
    simp [pyOr, h1, h2]
  · intro h1 h2
    simp at h1 h2
    show some (pyOr (pyOr (dictGet kvs ("name".toList)) (dictGet kvs ("deckName".toList)))
      (Json.str "Unnamed Deck".toList)) = _
    simp [pyOr, h1, h2]
  · intro h1
    simp at h1
    show some (pyOr (dictGet kvs ("format".toList)) (Json.str "unknown".toList)) = _
    simp [pyOr, h1]
  · intro h1
    simp at h1
    show some (pyOr (dictGet kvs ("format".toList)) (Json.str "unknown".toList)) = _
    simp [pyOr, h1]

/-- C4 witness: a deck whose `id` is a truthy string resolves `id` from
the `id` key itself. -/
theorem C4_amended_first_truthy_wins_witness :
    dictFind ((parse_deck_list [] (Json.obj [("id".toList, Json.str "A".toList),
      ("mainDeck".toList, Json.arr [])])).getD []) ("id".toList) =
      some (Json.str "A".toList) := by
  obtain ⟨d, hd⟩ : ∃ d, parse_deck_list [] (Json.obj [("id".toList, Json.str "A".toList),
      ("mainDeck".toList, Json.arr [])]) = some d := ⟨_, rfl⟩
  rw [hd, Option.getD_some]
  exact (C4_amended_first_truthy_wins [] _ d hd).1 rfl

/-- C9 counterexample: normalizing a raw deck with no identifying field
(`\x7b"mainDeck": []\x7d`) yields `id = None` (JSON `null`), not the
empty string, and `None` is not a string value.  This refutes "the id
field is a string, and it is the empty string when no identifying field
is present". -/
theorem C9_counterexample :
    dictFind ((parse_deck_list [] (Json.obj [("mainDeck".toList, Json.arr [])])).getD [])
      ("id".toList) = some Json.null ∧ Json.null ≠ Json.str [] :=
  ⟨rfl, fun hcontra => Json.noConfusion hcontra⟩

/-- C9 (amended): when none of the identifying keys `id`, `deckId`,
`deckID` is present in the source raw deck, the normalized deck's `id`
is `None` (JSON `null`), not a string. -/
theorem C9_amended_id_null_when_absent (now : List Char) (kvs d : PyDict)
    (h : parse_deck_list now (Json.obj kvs) = some d)
    (h1 : dictHasKey kvs ("id".toList) = false)
    (h2 : dictHasKey kvs ("deckId".toList) = false)
    (h3 : dictHasKey kvs ("deckID".toList) = false) :
    dictFind d ("id".toList) = some Json.null := by
  have hd := Option.some.inj h
  subst hd
  show some (pyOr (pyOr (dictGet kvs ("id".toList)) (dictGet kvs ("deckId".toList)))
    (dictGet kvs ("deckID".toList))) = some Json.null
  rw [dictGet_eq_null_of_hasKey_false h1, dictGet_eq_null_of_hasKey_false h2,
    dictGet_eq_null_of_hasKey_false h3]
  rfl

/-- C9 witness: a raw deck carrying only `mainBoard` has `id = None`. -/
theorem C9_amended_id_null_when_absent_witness :
    dictFind ((parse_deck_list [] (Json.obj [("mainBoard".toList, Json.arr [])])).getD [])
      ("id".toList) = some Json.null := by
  obtain ⟨d, hd⟩ : ∃ d, parse_deck_list [] (Json.obj [("mainBoard".toList, Json.arr [])]) =
      some d := ⟨_, rfl⟩
  rw [hd, Option.getD_some]
  exact C9_amended_id_null_when_absent [] _ d hd rfl rfl rfl

/-- C8 counterexample: a source card mapping with `quantity: 0` is
normalized to a card entry with quantity `0`, which is not a positive
integer.  This refutes "quantity is a positive integer". -/
theorem C8_counterexample :
    dictFind ((parse_deck_list [] (Json.obj [("mainDeck".toList,
        Json.arr [Json.obj [("quantity".toList, Json.num 0)]])])).getD [])
      ("main_deck".toList) =
      some (Json.arr [Json.obj [("card_id".toList, Json.null),
        ("quantity".toList, Json.num 0),
        ("name".toList, Json.str "Unknown".toList)]]) ∧
    ¬ (0 : Int) < 0 :=
  ⟨rfl, by omega⟩

/-- C8 (amended): every main-deck card entry of a normalized deck is the
normalization of some mapping of the source card list, and a normalized
entry's quantity is the source mapping's `quantity` value taken verbatim
(any JSON value, not necessarily a positive integer), defaulting to `1`
exactly when the source mapping has no `quantity` key. -/
theorem C8_amended_quantity_verbatim_default_one (now : List Char) :
    (∀ (kvs d : PyDict) (l : List Json) (e : Json),
      parse_deck_list now (Json.obj kvs) = some d →
      dictFind d ("main_deck".toList) = some (Json.arr l) → e ∈ l →
      ∃ ckvs : PyDict,
        Json.obj ckvs ∈ srcCardList kvs
          (if dictHasKey kvs ("mainDeck".toList) then "mainDeck".toList
           else "mainBoard".toList) ∧
        e = normalizeCard ckvs) ∧
    (∀ ckvs : PyDict,
      jsonGet (normalizeCard ckvs) ("quantity".toList) =
        dictGetD ckvs ("quantity".toList) (Json.num 1) ∧
      (dictHasKey ckvs ("quantity".toList) = false →
        jsonGet (normalizeCard ckvs) ("quantity".toList) = Json.num 1)) := by
  constructor
  · intro kvs d l e h hfind hmem
    have hd := Option.some.inj h
    subst hd
    have hfind' : Json.arr (normalizeCardList (srcCardList kvs
        (if dictHasKey kvs ("mainDeck".toList) then "mainDeck".toList
         else "mainBoard".toList))) = Json.arr l := Option.some.inj hfind
    have hl := Json.arr.inj hfind'
    rw [← hl] at hmem
    exact mem_normalizeCardList hmem
  · intro ckvs
    constructor
    · rfl
    · intro hq
      show dictGetD ckvs ("quantity".toList) (Json.num 1) = Json.num 1
      exact dictGetD_eq_default_of_hasKey_false hq

/-- C8 witness: a deck with one empty card mapping; its entry is the
normalization of that mapping and its quantity defaults to `1`. -/
theorem C8_amended_quantity_verbatim_default_one_witness :
    (∃ ckvs : PyDict,
      Json.obj ckvs ∈ srcCardList
        [(("mainDeck".toList : List Char), Json.arr [Json.obj []])]
        (if dictHasKey [(("mainDeck".toList : List Char), Json.arr [Json.obj []])]
            ("mainDeck".toList) then "mainDeck".toList
         else "mainBoard".toList) ∧
      Json.obj [("card_id".toList, Json.null), ("quantity".toList, Json.num 1),
        ("name".toList, Json.str "Unknown".toList)] = normalizeCard ckvs) ∧
    jsonGet (normalizeCard []) ("quantity".toList) = Json.num 1 := by
  constructor
  · refine (C8_amended_quantity_verbatim_default_one []).1 _
      ((parse_deck_list [] (Json.obj [("mainDeck".toList,
        Json.arr [Json.obj []])])).getD [])
      [Json.obj [("card_id".toList, Json.null), ("quantity".toList, Json.num 1),
        ("name".toList, Json.str "Unknown".toList)]] _ rfl ?_ ?_
    · rfl
    · simp
  · exact ((C8_amended_quantity_verbatim_default_one []).2 []).2 rfl

/-- C5: two canonical decks with identical `id`, identical `name` and
equal main-deck length have equal `get_deck_id` fingerprints, and once
the first is recorded in the exported set, the second is treated as
already seen and suppressed by the dedup loop — regardless of their card
contents, which the fingerprint never inspects. -/
theorem C5_fingerprint_collision (d1 d2 : PyDict)
    (hid : dictGetD d1 ("id".toList) (Json.str []) = dictGetD d2 ("id".toList) (Json.str []))
    (hname : dictGetD d1 ("name".toList) (Json.str []) =
      dictGetD d2 ("name".toList) (Json.str []))
    (hlen : pyLen (dictGetD d1 ("main_deck".toList) (Json.arr [])) =
      pyLen (dictGetD d2 ("main_deck".toList) (Json.arr []))) :
    get_deck_id d1 = get_deck_id d2 ∧
    process_new_decks [d1, d2] [] = ([d1], [get_deck_id d1]) := by
  have hfp : get_deck_id d1 = get_deck_id d2 := by
    unfold get_deck_id
    rw [hid, hname, hlen]
  refine ⟨hfp, ?_⟩
  simp [process_new_decks, ← hfp]

/-- C5 witness: two concrete canonical decks sharing id `d`, name `N`
and one-card main decks, with different card names (`Forest` vs
`Island`) and quantities (1 vs 4): equal fingerprints, second
suppressed. -/
theorem C5_fingerprint_collision_witness :
    get_deck_id [(("id".toList : List Char), Json.str "d".toList),
      ("name".toList, Json.str "N".toList),
      ("main_deck".toList, Json.arr [Json.obj [("card_id".toList, Json.num 1),
        ("quantity".toList, Json.num 1), ("name".toList, Json.str "Forest".toList)]])] =
    get_deck_id [(("id".toList : List Char), Json.str "d".toList),
      ("name".toList, Json.str "N".toList),
      ("main_deck".toList, Json.arr [Json.obj [("card_id".toList, Json.num 2),
        ("quantity".toList, Json.num 4), ("name".toList, Json.str "Island".toList)]])] ∧
    process_new_decks
      [[(("id".toList : List Char), Json.str "d".toList),
        ("name".toList, Json.str "N".toList),
        ("main_deck".toList, Json.arr [Json.obj [("card_id".toList, Json.num 1),
          ("quantity".toList, Json.num 1), ("name".toList, Json.str "Forest".toList)]])],
       [(("id".toList : List Char), Json.str "d".toList),
        ("name".toList, Json.str "N".toList),
        ("main_deck".toList, Json.arr [Json.obj [("card_id".toList, Json.num 2),
          ("quantity".toList, Json.num 4), ("name".toList, Json.str "Island".toList)]])]] [] =
      ([[(("id".toList : List Char), Json.str "d".toList),
        ("name".toList, Json.str "N".toList),
        ("main_deck".toList, Json.arr [Json.obj [("card_id".toList, Json.num 1),
          ("quantity".toList, Json.num 1), ("name".toList, Json.str "Forest".toList)]])]],
       [get_deck_id [(("id".toList : List Char), Json.str "d".toList),
        ("name".toList, Json.str "N".toList),
        ("main_deck".toList, Json.arr [Json.obj [("card_id".toList, Json.num 1),
          ("quantity".toList, Json.num 1), ("name".toList, Json.str "Forest".toList)]])]]) :=
  C5_fingerprint_collision _ _ rfl rfl rfl

/-- C2 counterexample: two well-formed JSON objects separated by the
non-JSON text `" \x7d "` (a stray close brace between them).  Both
objects decode, yet the scan yields only one block, not two: the stray
close brace drives the depth negative, so the second object's opening
brace is not recorded as a block start.  This refutes the claim for
arbitrary non-JSON separator text. -/
theorem C2_counterexample :
    parseJson (lbrace :: "\"a\":1".toList ++ [rbrace]) =
      some (Json.obj [("a".toList, Json.num 1)]) ∧
    parseJson (lbrace :: "\"b\":2".toList ++ [rbrace]) =
      some (Json.obj [("b".toList, Json.num 2)]) ∧
    (extract_json_blocks ((lbrace :: "\"a\":1".toList ++ [rbrace]) ++ " \x7d ".toList ++
      (lbrace :: "\"b\":2".toList ++ [rbrace]))).length = 1 :=
  ⟨rfl, rfl, rfl⟩

/-- C2 (amended): for a buffer consisting of two JSON objects whose raw
text is brace-balanced (depth returns to zero exactly at the final
close brace), separated and surrounded by brace-free non-JSON text, and
both decodable by `json.loads`, `extract_json_blocks` yields exactly the
two decoded blocks, in order of appearance. -/
theorem C2_amended_two_blocks (t0 t1 t2 m1 m2 : List Char) (v1 v2 : Json)
    (h0 : ∀ c ∈ t0, c ≠ lbrace ∧ c ≠ rbrace)
    (h1 : ∀ c ∈ t1, c ≠ lbrace ∧ c ≠ rbrace)
    (h2 : ∀ c ∈ t2, c ≠ lbrace ∧ c ≠ rbrace)
    (hm1 : staysPos 1 m1 = true) (hs1 : braceSum m1 = 0)
    (hm2 : staysPos 1 m2 = true) (hs2 : braceSum m2 = 0)
    (hp1 : parseJson (lbrace :: m1 ++ [rbrace]) = some v1)
    (hp2 : parseJson (lbrace :: m2 ++ [rbrace]) = some v2) :
    extract_json_blocks (t0 ++ (lbrace :: m1 ++ [rbrace]) ++ t1 ++
      (lbrace :: m2 ++ [rbrace]) ++ t2) = [v1, v2] := by
  have e0 : accGo ⟨0, none, []⟩ t0 = ⟨0, none, []⟩ := accGo_inert _ h0 rfl
  have e1 : accGo ⟨0, none, []⟩ (lbrace :: m1 ++ [rbrace]) = ⟨0, none, [v1]⟩ := by
    rw [accGo_balanced m1 [] hm1 hs1, hp1]
    rfl
  have e2 : accGo ⟨0, none, [v1]⟩ t1 = ⟨0, none, [v1]⟩ := accGo_inert _ h1 rfl
  have e3 : accGo ⟨0, none, [v1]⟩ (lbrace :: m2 ++ [rbrace]) = ⟨0, none, [v1, v2]⟩ := by
    rw [accGo_balanced m2 [v1] hm2 hs2, hp2]
    rfl
  have e4 : accGo ⟨0, none, [v1, v2]⟩ t2 = ⟨0, none, [v1, v2]⟩ := accGo_inert _ h2 rfl
  have a1 : accGo ⟨0, none, []⟩ (t0 ++ (lbrace :: m1 ++ [rbrace])) = ⟨0, none, [v1]⟩ := by
    rw [accGo_append, e0, e1]
  have a2 : accGo ⟨0, none, []⟩ (t0 ++ (lbrace :: m1 ++ [rbrace]) ++ t1) =
      ⟨0, none, [v1]⟩ := by
    rw [accGo_append, a1, e2]
  have a3 : accGo ⟨0, none, []⟩ (t0 ++ (lbrace :: m1 ++ [rbrace]) ++ t1 ++
      (lbrace :: m2 ++ [rbrace])) = ⟨0, none, [v1, v2]⟩ := by
    rw [accGo_append, a2, e3]
  have a4 : accGo ⟨0, none, []⟩ (t0 ++ (lbrace :: m1 ++ [rbrace]) ++ t1 ++
      (lbrace :: m2 ++ [rbrace]) ++ t2) = ⟨0, none, [v1, v2]⟩ := by
    rw [accGo_append, a3, e4]
  rw [extract_eq_accGo, a4]

/-- C2 witness: concrete log noise around the blocks
`\x7b"a":1\x7d` and `\x7b"b":2\x7d`. -/
theorem C2_amended_two_blocks_witness :
    extract_json_blocks ("log ".toList ++ (lbrace :: "\"a\":1".toList ++ [rbrace]) ++
      " x ".toList ++ (lbrace :: "\"b\":2".toList ++ [rbrace]) ++ "!".toList) =
      [Json.obj [("a".toList, Json.num 1)], Json.obj [("b".toList, Json.num 2)]] :=
  C2_amended_two_blocks _ _ _ _ _ _ _ (by decide) (by decide) (by decide)
    (by decide) (by decide) (by decide) (by decide) rfl rfl

/-- C6: a buffer ending mid-object — after well-scanned content that
leaves the scanner at depth 0 with no open block, an opening brace whose
depth never returns to zero before the end of the buffer — produces no
block for the unterminated fragment and yields exactly the decks of the
preceding content (zero decks for the fragment); the scan is total, so
nothing is raised. -/
theorem C6_unterminated_tail (now t v : List Char)
    (hlevel : (scanGo t ⟨0, none, []⟩ 0 t).brace_level = 0)
    (hstart : (scanGo t ⟨0, none, []⟩ 0 t).start_idx = none)
    (hv : staysPos 1 v = true) :
    extract_json_blocks (t ++ lbrace :: v) = extract_json_blocks t ∧
    parse_log_chunk now (t ++ lbrace :: v) 0 = parse_log_chunk now t 0 := by
  have hrel := scanGo_agrees t t 0 ⟨0, none, []⟩ ⟨0, none, []⟩ (by simp)
    ⟨rfl, rfl, Or.inl ⟨rfl, rfl⟩⟩
  obtain ⟨hl, _, hdisj⟩ := hrel
  have hcur : (accGo ⟨0, none, []⟩ t).cur = none := by
    rcases hdisj with ⟨_, hc⟩ | ⟨s, hs, _, _⟩
    · exact hc
    · rw [hstart] at hs
      exact Option.noConfusion hs
  have hlvl0 : (accGo ⟨0, none, []⟩ t).brace_level = 0 := by
    rw [← hl]
    exact hlevel
  have key : (accGo ⟨0, none, []⟩ (t ++ lbrace :: v)).blocks =
      (accGo ⟨0, none, []⟩ t).blocks := by
    rw [accGo_append]
    cases hacc : accGo ⟨0, none, []⟩ t with
    | mk L C B =>
        rw [hacc] at hlvl0 hcur
        have hL : L = 0 := hlvl0
        have hC : C = none := hcur
        subst hL
        subst hC
        rw [accGo_unterminated v B hv]
  have hext : extract_json_blocks (t ++ lbrace :: v) = extract_json_blocks t := by
    rw [extract_eq_accGo, extract_eq_accGo, key]
  refine ⟨hext, ?_⟩
  simp only [parse_log_chunk, List.drop_zero]
  rw [hext]

/-- C6 witness: the unterminated fragment `\x7b"mainDeck":[` alone in
the buffer yields no blocks and zero decks. -/
theorem C6_unterminated_tail_witness :
    extract_json_blocks (([] : List Char) ++ lbrace :: "\"mainDeck\":[".toList) =
      extract_json_blocks ([] : List Char) ∧
    parse_log_chunk [] (([] : List Char) ++ lbrace :: "\"mainDeck\":[".toList) 0 =
      parse_log_chunk [] ([] : List Char) 0 ∧
    parse_log_chunk [] (([] : List Char) ++ lbrace :: "\"mainDeck\":[".toList) 0 = [] :=
  ⟨(C6_unterminated_tail [] [] _ rfl rfl (by decide)).1,
   (C6_unterminated_tail [] [] _ rfl rfl (by decide)).2,
   (C6_unterminated_tail [] [] _ rfl rfl (by decide)).2.trans rfl⟩

end ManaScanner
